import Mathlib

/-!
Verification development for the `blockchain` repository (`src/blockchain.py`).

The Python module defines two classes:

* `Block` — stores `previous_hash`, `transactions`, a content hash
  `this_hash = hash((previous_hash,) + transactions)` computed at
  construction, and a `timestamp` assigned after the hash;
* `Chain` — a list of blocks starting from a genesis `Block()`, with
  `register_block` (append a block linked to the tail's `this_hash`) and
  `isvalid` (re-check every link by recomputing each predecessor's hash).

The embedding models Python values precisely: `previous_hash` is `None` or an
`int` (here `Option Int`), `transactions` is a sequence of `int`s
(`List Int`), and `hash` is CPython's built-in hash, reproduced bit-for-bit
for `int` and `tuple` arguments below (validated against CPython 3.11 on
concrete tuples).  Time is passed explicitly: each constructor takes the
current clock value `now` standing for `datetime.datetime.now()`.
-/

namespace Blockchain

/-! ### CPython's built-in `hash` on ints, `None` and tuples -/

/-- `2 ^ 64`; CPython hash accumulators are 64-bit (`Py_uhash_t`). -/
def U64 : Nat := 2 ^ 64

/-- The Mersenne prime `2 ^ 61 - 1` used by CPython's integer hash
(`_PyHASH_MODULUS`). -/
def pyHashPrime : Nat := 2 ^ 61 - 1

/-- CPython `hash(n)` for an `int` `n`: the magnitude is reduced modulo
`2 ^ 61 - 1`, the sign is re-applied, and a result of `-1` (the C error
sentinel) is replaced by `-2`. -/
def pyHashInt (n : Int) : Int :=
  let r : Int := if 0 ≤ n then n % (pyHashPrime : Int) else -((-n) % (pyHashPrime : Int))
  if r = -1 then -2 else r

/-- CPython `hash(None)`.  From CPython 3.12 on this is the fixed constant
`0xFCA86420`; in earlier versions it is an address-derived per-process
constant.  No result below depends on its value, only on it being a fixed
integer for the process, so the 3.12 constant is used. -/
def pyHashNoneVal : Int := 0xFCA86420

/-- Reinterpret a signed 64-bit hash value as `Py_uhash_t` (two's
complement). -/
def toU64 (i : Int) : Nat := (i % (U64 : Int)).toNat

/-- Reinterpret a `Py_uhash_t` as the signed `Py_hash_t` returned to Python. -/
def fromU64 (n : Nat) : Int := if n < 2 ^ 63 then (n : Int) else (n : Int) - (U64 : Int)

/-- xxHash prime 1 (`_PyHASH_XXPRIME_1`). -/
def xxprime1 : Nat := 11400714785074694791

/-- xxHash prime 2 (`_PyHASH_XXPRIME_2`). -/
def xxprime2 : Nat := 14029467366897019727

/-- xxHash prime 5 (`_PyHASH_XXPRIME_5`). -/
def xxprime5 : Nat := 2870177450012600261

/-- `_PyHASH_XXROTATE`: rotate a 64-bit accumulator left by 31 bits. -/
def xxrotate (x : Nat) : Nat := ((x * 2 ^ 31) % U64) ||| (x / 2 ^ 33)

/-- One lane of CPython's tuple hash loop: absorb one element hash into the
accumulator. -/
def tupleHashStep (acc lane : Nat) : Nat :=
  (xxrotate ((acc + lane * xxprime2) % U64) * xxprime1) % U64

/-- CPython `hash(t)` for a tuple `t`, as a function of the element hashes:
the xxHash-style fold (CPython ≥ 3.8, `tuplehash` in `tupleobject.c`),
followed by the length mix-in and the `-1 ↦ 1546275796` fix-up. -/
def pyHashTuple (elemHashes : List Int) : Int :=
  let acc := elemHashes.foldl (fun a h => tupleHashStep a (toU64 h)) xxprime5
  let acc := (acc + Nat.xor elemHashes.length (Nat.xor xxprime5 3527539)) % U64
  fromU64 (if acc = U64 - 1 then 1546275796 else acc)

/-- Hash of a `previous_hash` slot: `None` hashes to `pyHashNoneVal`, an
`int` by `pyHashInt`. -/
def pyHashOptInt : Option Int → Int
  | Option.none => pyHashNoneVal
  | Option.some n => pyHashInt n

/-- `hash((previous_hash,) + transactions)` — the hash expression of
`Block.generate_hash` (blockchain.py line 16) as a function of the two
fields it reads. -/
def hashFields (previous_hash : Option Int) (transactions : List Int) : Int :=
  pyHashTuple (pyHashOptInt previous_hash :: transactions.map pyHashInt)

/-! ### `Block` -/

/-- A `Block` as stored by the Python class: the four instance attributes set
by `Block.__init__`.  `timestamp` is the clock value observed at
construction. -/
structure Block where
  previous_hash : Option Int
  transactions : List Int
  this_hash : Int
  timestamp : Nat
deriving DecidableEq, Repr

/-- `Block.generate_hash` (blockchain.py lines 15–16): recompute the hash
from the block's *current* `previous_hash` and `transactions`. -/
def Block.generate_hash (b : Block) : Int :=
  hashFields b.previous_hash b.transactions

/-- `Block.__init__` (blockchain.py lines 8–12): store the two given fields,
compute `this_hash` from them, then record the timestamp.  The Python
defaults are `previous_hash=None`, `transactions=()`; call sites pass them
explicitly here. -/
def Block.new (previous_hash : Option Int) (transactions : List Int) (now : Nat) : Block :=
  { previous_hash := previous_hash
    transactions := transactions
    this_hash := hashFields previous_hash transactions
    timestamp := now }

/-! ### `Chain` -/

/-- A `Chain` as stored by the Python class: its single attribute `chain`,
the list of blocks. -/
structure Chain where
  chain : List Block
deriving DecidableEq, Repr

/-- `Chain.__init__` (blockchain.py lines 25–27): a fresh chain holds exactly
one genesis block `Block()`, i.e. `previous_hash = None`,
`transactions = ()`. -/
def Chain.new (now : Nat) : Chain := ⟨[Block.new Option.none [] now]⟩

/-- `Chain.register_block` (blockchain.py lines 30–31):
`self.chain.append(Block(self.chain[-1].this_hash, transactions))`.
The outer `Option` models the `IndexError` that `self.chain[-1]` raises on an
empty list (unreachable from `Chain.__init__`, which always installs the
genesis block).  The second component of the pair is the method's Python
return value: the body has no `return` statement, so Python returns `None` —
never the new block. -/
def Chain.register_block (c : Chain) (transactions : List Int) (now : Nat) :
    Option (Chain × Option Block) :=
  match c.chain.getLast? with
  | Option.none => Option.none
  | Option.some last =>
      Option.some
        (⟨c.chain ++ [Block.new (Option.some last.this_hash) transactions now]⟩, Option.none)

/-- The link relation checked by `Chain.isvalid` between consecutive blocks:
the successor's stored `previous_hash` equals the predecessor's *recomputed*
hash. -/
def linkRel (a b : Block) : Prop := b.previous_hash = Option.some a.generate_hash

/-- The loop of `Chain.isvalid` (blockchain.py lines 41–47): walk the blocks
from index 1 onward, comparing each block's `previous_hash` with
`generate_hash()` of its predecessor; the first mismatch returns `False`,
otherwise `True`. -/
def linksOk : List Block → Bool
  | b0 :: b1 :: rest =>
      if b1.previous_hash = Option.some b0.generate_hash then linksOk (b1 :: rest) else false
  | _ => true

/-- `Chain.isvalid` (blockchain.py lines 41–47). -/
def Chain.isvalid (c : Chain) : Bool := linksOk c.chain

/-- External mutation `chain[i].transactions = txs` of one block's
transaction tuple, exactly as performed by blockchain.py's `__main__` block
(lines 58–60) and by the reference test `test_chain_validation`: only the
`transactions` attribute changes, the cached `this_hash`, `previous_hash`
and `timestamp` are untouched.  Out-of-range indices leave the list
unchanged. -/
def setTransactionsAt : List Block → Nat → List Int → List Block
  | [], _, _ => []
  | b :: rest, 0, txs => { b with transactions := txs } :: rest
  | b :: rest, i + 1, txs => b :: setTransactionsAt rest i txs

/-- Mutation of block `i` of a chain, lifted from `setTransactionsAt`. -/
def Chain.setTransactions (c : Chain) (i : Nat) (txs : List Int) : Chain :=
  ⟨setTransactionsAt c.chain i txs⟩

/-- One `register_block` call viewed as a state transition (discarding the
Python `None` return value). -/
def Chain.registerStep (c : Chain) (s : List Int × Nat) : Option Chain :=
  (c.register_block s.1 s.2).map Prod.fst

/-- Run a finite sequence of `register_block` calls; each step supplies the
transactions and the clock value at that call. -/
def Chain.buildSteps (init : Chain) (steps : List (List Int × Nat)) : Option Chain :=
  steps.foldlM Chain.registerStep init

/-! ### `Node` (mining) -/

/-- Modelled from the spec: the `Node` class is absent from
`src/blockchain.py` (only `src/tests.py` imports it).  Per spec §3, a node
holds its `chain`, the pool `unmined_transactions` of pending transaction
values, and a collection of `peers` addresses. -/
structure Node where
  chain : Chain
  unmined_transactions : List Int
  peers : List String
deriving DecidableEq, Repr

/-- Modelled from the spec: `Node.mine` is absent from `src/blockchain.py`.
Per spec §4.4: with an empty pool, a silent no-op; otherwise construct and
append to `chain` the block carrying the pooled transactions, then clear
`unmined_transactions`, the append and the clear forming one state
transition.  The proof-of-work search is left abstract (spec §9 records that
no puzzle is implemented or specified in the source); it does not affect the
appended transactions, the chain length or the pool.  The unreachable
failure branch (empty chain) leaves the node unchanged. -/
def Node.mine (n : Node) (now : Nat) : Node :=
  if n.unmined_transactions = [] then n
  else
    match n.chain.register_block n.unmined_transactions now with
    | Option.none => n
    | Option.some (c', _) => { n with chain := c', unmined_transactions := [] }

/-- The cache-consistency invariant of unmutated blocks: the stored
`this_hash` agrees with the hash recomputed from the current fields (spec §3,
"`this_hash` is always the hash of the block's current field values"). -/
def cacheOk (l : List Block) : Prop := ∀ b ∈ l, b.this_hash = b.generate_hash

end Blockchain

namespace Blockchain

/-! ### Helper lemmas -/

theorem linksOk_iff_chain : ∀ l : List Block, linksOk l = true ↔ List.Chain' linkRel l
  | [] => by simp [linksOk]
  | [b] => by simp [linksOk]
  | b0 :: b1 :: rest => by
    rw [List.chain'_cons]
    by_cases h : b1.previous_hash = Option.some b0.generate_hash
    · simp [linksOk, h, linkRel, linksOk_iff_chain (b1 :: rest)]
    · simp [linksOk, h, linkRel]

theorem linksOk_iff_forall_get (l : List Block) :
    linksOk l = true ↔ ∀ i, (h : i + 1 < l.length) →
      (l.get ⟨i + 1, h⟩).previous_hash =
        Option.some ((l.get ⟨i, Nat.lt_of_succ_lt h⟩).generate_hash) := by
  rw [linksOk_iff_chain, List.chain'_iff_get]
  constructor
  · intro H i h
    exact H i (by omega)
  · intro H i h
    exact H i (by omega)

theorem setTransactionsAt_length : ∀ (l : List Block) (k : Nat) (txs : List Int),
    (setTransactionsAt l k txs).length = l.length
  | [], _, _ => rfl
  | _ :: _, 0, _ => rfl
  | _ :: rest, k + 1, txs => congrArg Nat.succ (setTransactionsAt_length rest k txs)

theorem setTransactionsAt_get : ∀ (l : List Block) (k : Nat) (txs : List Int) (j : Nat)
    (hj : j < (setTransactionsAt l k txs).length),
    (setTransactionsAt l k txs).get ⟨j, hj⟩ =
      if j = k then
        { l.get ⟨j, setTransactionsAt_length l k txs ▸ hj⟩ with transactions := txs }
      else l.get ⟨j, setTransactionsAt_length l k txs ▸ hj⟩
  | [], _, _, j, hj => absurd hj (by simp [setTransactionsAt])
  | b :: rest, 0, txs, 0, hj => by simp [setTransactionsAt]
  | b :: rest, 0, txs, j + 1, hj => by simp [setTransactionsAt]
  | b :: rest, k + 1, txs, 0, hj => by simp [setTransactionsAt]
  | b :: rest, k + 1, txs, j + 1, hj => by
    have ih := setTransactionsAt_get rest k txs j (by simpa [setTransactionsAt] using hj)
    simp only [List.get_eq_getElem] at ih ⊢
    by_cases h : j = k
    · simpa [setTransactionsAt, h] using ih
    · simpa [setTransactionsAt, h] using ih

theorem register_block_eq (c : Chain) (h : c.chain ≠ []) (txs : List Int) (now : Nat) :
    c.register_block txs now =
      Option.some
        (⟨c.chain ++ [Block.new (Option.some ((c.chain.getLast h)).this_hash) txs now]⟩,
          Option.none) := by
  simp [Chain.register_block, List.getLast?_eq_getLast_of_ne_nil h]

theorem cacheOk_append (l : List Block) (b : Block) (hl : cacheOk l)
    (hb : b.this_hash = b.generate_hash) : cacheOk (l ++ [b]) := by
  intro x hx
  rcases List.mem_append.mp hx with h | h
  · exact hl x h
  · simp only [List.mem_singleton] at h
    subst h
    exact hb

theorem chain_append_link (l : List Block) (h : l ≠ []) (hc : List.Chain' linkRel l)
    (b : Block) (hb : b.previous_hash = Option.some ((l.getLast h).generate_hash)) :
    List.Chain' linkRel (l ++ [b]) := by
  rw [List.chain'_append]
  refine ⟨hc, List.chain'_singleton b, ?_⟩
  intro x hx y hy
  rw [List.getLast?_eq_getLast_of_ne_nil h] at hx
  simp only [Option.mem_def, Option.some.injEq, List.head?_cons] at hx hy
  subst hx
  subst hy
  exact hb

theorem registerStep_good (c : Chain) (s : List Int × Nat)
    (hne : c.chain ≠ []) (hcache : cacheOk c.chain) (hchain : List.Chain' linkRel c.chain) :
    ∃ c', Chain.registerStep c s = Option.some c' ∧
      c'.chain ≠ [] ∧ cacheOk c'.chain ∧ List.Chain' linkRel c'.chain := by
  refine ⟨⟨c.chain ++ [Block.new (Option.some ((c.chain.getLast hne)).this_hash) s.1 s.2]⟩,
    ?_, ?_, ?_, ?_⟩
  · simp [Chain.registerStep, register_block_eq c hne]
  · simp
  · exact cacheOk_append _ _ hcache rfl
  · apply chain_append_link _ hne hchain
    have hmem : c.chain.getLast hne ∈ c.chain := List.getLast_mem hne
    have hch := hcache _ hmem
    simp [Block.new, hch]

theorem buildSteps_good : ∀ (steps : List (List Int × Nat)) (c : Chain),
    c.chain ≠ [] → cacheOk c.chain → List.Chain' linkRel c.chain →
    ∃ c', Chain.buildSteps c steps = Option.some c' ∧
      c'.chain ≠ [] ∧ cacheOk c'.chain ∧ List.Chain' linkRel c'.chain
  | [], c, h1, h2, h3 => ⟨c, rfl, h1, h2, h3⟩
  | s :: rest, c, h1, h2, h3 => by
    obtain ⟨c1, hs, g1, g2, g3⟩ := registerStep_good c s h1 h2 h3
    obtain ⟨c', hrest, k1, k2, k3⟩ := buildSteps_good rest c1 g1 g2 g3
    refine ⟨c', ?_, k1, k2, k3⟩
    simpa [Chain.buildSteps, List.foldlM_cons, hs] using hrest

theorem chainNew_good (now : Nat) :
    (Chain.new now).chain ≠ [] ∧ cacheOk (Chain.new now).chain ∧
      List.Chain' linkRel (Chain.new now).chain := by
  refine ⟨by simp [Chain.new], ?_, ?_⟩
  · intro b hb
    simp only [Chain.new, List.mem_singleton] at hb
    subst hb
    simp [Block.new, Block.generate_hash]
  · simp [Chain.new]

end Blockchain

namespace Blockchain

/-! ### Claim theorems -/

/-- C1: `Chain.isvalid` returns `true` exactly when, for every index
`i ≥ 1`, `blocks[i].previous_hash` equals the hash of `blocks[i-1]`
recomputed by `generate_hash` from that block's current stored field values
(never the cached `this_hash`); equivalently it returns `false` exactly when
some link fails — and `true` when no block lies past the genesis. -/
theorem isvalid_checks_recomputed_links (c : Chain) :
    c.isvalid = true ↔
      ∀ i, (h : i < c.chain.length) → 0 < i →
        (c.chain.get ⟨i, h⟩).previous_hash =
          Option.some
            ((c.chain.get ⟨i - 1, Nat.lt_of_le_of_lt (Nat.sub_le i 1) h⟩).generate_hash) := by
  rw [Chain.isvalid, linksOk_iff_forall_get]
  constructor
  · intro H i h hi
    obtain ⟨j, rfl⟩ : ∃ j, i = j + 1 := ⟨i - 1, by omega⟩
    have hx := H j (by omega)
    simpa using hx
  · intro H i h
    have hx := H (i + 1) (by omega) (by omega)
    simpa using hx

/-- Witness for C1 at a concrete chain: the fresh chain has no link past the
genesis, so `isvalid` is `true`. -/
theorem isvalid_checks_recomputed_links_witness : (Chain.new 0).isvalid = true :=
  (isvalid_checks_recomputed_links (Chain.new 0)).mpr (by decide)

/-- C2: every chain obtained from a fresh `Chain` by a finite sequence of
`register_block` calls (no external mutation) satisfies `isvalid = true`. -/
theorem append_only_chains_valid (t0 : Nat) (steps : List (List Int × Nat)) (c : Chain)
    (h : Chain.buildSteps (Chain.new t0) steps = Option.some c) :
    c.isvalid = true := by
  obtain ⟨g1, g2, g3⟩ := chainNew_good t0
  obtain ⟨c', hc', _, _, k3⟩ := buildSteps_good steps (Chain.new t0) g1 g2 g3
  rw [h] at hc'
  cases Option.some.inj hc'
  rw [Chain.isvalid, linksOk_iff_chain]
  exact k3

/-- Witness for C2: a chain built by two concrete `register_block` calls is
valid. -/
theorem append_only_chains_valid_witness :
    ((Chain.buildSteps (Chain.new 0) [([1, 2], 1), ([3], 2)]).getD (Chain.new 0)).isvalid
      = true :=
  append_only_chains_valid 0 [([1, 2], 1), ([3], 2)] _ rfl

/-- C3 counterexample: in the valid chain built by registering `[-1]` and
then `[5]`, replacing the transaction `-1` of the non-tip block 1 by the
different value `-2` leaves `isvalid = true`: CPython's `hash(-1) = hash(-2)
= -2`, so the recomputed block hash does not change and the corruption is
undetectable. -/
theorem mutation_undetected_on_hash_collision :
    ((Chain.buildSteps (Chain.new 0) [([-1], 1), ([5], 2)]).getD (Chain.new 0)).isvalid
        = true ∧
    ((-2 : Int) ≠ (-1 : Int)) ∧
    (((Chain.buildSteps (Chain.new 0) [([-1], 1), ([5], 2)]).getD
          (Chain.new 0)).setTransactions 1 [-2]).isvalid = true := by
  decide

/-- C3 (amended): in a valid chain, replacing the transactions of a non-tip
block by transactions whose recomputed hash differs (which any replacement
of one transaction by a value with a different CPython hash produces) makes
`isvalid` return `false` afterward, while it returned `true` beforehand. -/
theorem nontip_mutation_changing_hash_invalidates (c : Chain) (i : Nat) (txs : List Int)
    (hv : c.isvalid = true) (hi : i + 1 < c.chain.length)
    (hne : hashFields ((c.chain.get ⟨i, by omega⟩).previous_hash) txs ≠
      (c.chain.get ⟨i, by omega⟩).generate_hash) :
    (c.setTransactions i txs).isvalid = false := by
  show linksOk (setTransactionsAt c.chain i txs) = false
  rw [Bool.eq_false_iff]
  intro htrue
  rw [Chain.isvalid, linksOk_iff_forall_get] at hv
  rw [linksOk_iff_forall_get] at htrue
  have hlen := setTransactionsAt_length c.chain i txs
  have hlink := htrue i (by omega)
  rw [setTransactionsAt_get, setTransactionsAt_get] at hlink
  rw [if_neg (by omega : ¬ i + 1 = i), if_pos rfl] at hlink
  have horig := hv i hi
  apply hne
  have hsome :
      Option.some (hashFields ((c.chain.get ⟨i, by omega⟩).previous_hash) txs) =
        Option.some ((c.chain.get ⟨i, by omega⟩).generate_hash) := by
    rw [← horig]
    exact hlink.symm
  exact Option.some.inj hsome

/-- Witness for the amended C3: mutating block 1 of the concrete valid chain
built from `[1]` and `[5]` to hold `[7]` is detected. -/
theorem nontip_mutation_changing_hash_invalidates_witness :
    (((Chain.buildSteps (Chain.new 0) [([1], 1), ([5], 2)]).getD
        (Chain.new 0)).setTransactions 1 [7]).isvalid = false :=
  nontip_mutation_changing_hash_invalidates _ 1 [7] (by decide) (by decide) (by decide)

end Blockchain

namespace Blockchain

/-- C4 counterexample: at a concrete chain and transaction sequence,
`register_block` succeeds and its Python return value is `None` (the method
body has no `return` statement) — not the newly appended `Block`, contrary
to the claim. -/
theorem register_block_returns_none :
    ((Chain.new 0).register_block [1, 2, 3] 1).map Prod.snd
        = Option.some (Option.none : Option Block) ∧
    (Option.none : Option Block) ≠
      Option.some
        (Block.new (Option.some ((Block.new Option.none [] 0).this_hash)) [1, 2, 3] 1) := by
  decide

/-- C4 (amended): on every chain holding at least one block (every chain the
constructor can produce), `register_block` succeeds, appends at the end a
block whose `previous_hash` is the stored `this_hash` of the current last
block and whose transactions are the given ones — but returns Python `None`,
not the new block. -/
theorem register_block_appends_linked_block (c : Chain) (txs : List Int) (now : Nat)
    (h : c.chain ≠ []) :
    c.register_block txs now =
      Option.some
        (⟨c.chain ++ [Block.new (Option.some ((c.chain.getLast h)).this_hash) txs now]⟩,
          Option.none) :=
  register_block_eq c h txs now

/-- Witness for the amended C4 at a concrete chain. -/
theorem register_block_appends_linked_block_witness :
    (Chain.new 0).chain ≠ [] ∧
    (Chain.new 0).register_block [1] 1 =
      Option.some
        (⟨(Chain.new 0).chain ++
            [Block.new (Option.some
              (((Chain.new 0).chain.getLast (by decide)).this_hash)) [1] 1]⟩,
          Option.none) :=
  ⟨by decide, register_block_appends_linked_block (Chain.new 0) [1] 1 (by decide)⟩

/-- C5 counterexample: two blocks with the same `previous_hash` but different
transactions (`[-1]` vs `[-2]`) have the same `generate_hash`, because
CPython's `hash(-1) = hash(-2) = -2`; so the hash does *not* change whenever
a transaction changes.  (The claim's `nonce` does not exist in the source at
all.) -/
theorem generate_hash_collision :
    (Block.new (Option.some 0) [-1] 0).transactions
        ≠ (Block.new (Option.some 0) [-2] 0).transactions ∧
    (Block.new (Option.some 0) [-1] 0).previous_hash
        = (Block.new (Option.some 0) [-2] 0).previous_hash ∧
    (Block.new (Option.some 0) [-1] 0).generate_hash
        = (Block.new (Option.some 0) [-2] 0).generate_hash := by
  decide

/-- C5 (amended): the block hash is a pure, stable function of exactly
(`previous_hash`, `transactions`) — the two fields `generate_hash` reads;
the source has no nonce.  Two blocks agreeing on these fields hash alike,
whatever their cached `this_hash` and `timestamp`; distinct inputs may
collide (see the counterexample). -/
theorem generate_hash_depends_only_on_fields (b b' : Block)
    (h1 : b.previous_hash = b'.previous_hash) (h2 : b.transactions = b'.transactions) :
    b.generate_hash = b'.generate_hash := by
  rw [Block.generate_hash, Block.generate_hash, h1, h2]

/-- Witness for the amended C5: two blocks differing in cached hash and
timestamp but agreeing on `previous_hash` and `transactions` hash alike. -/
theorem generate_hash_depends_only_on_fields_witness :
    (Block.mk (Option.some 1) [2] 99 7).generate_hash =
      (Block.mk (Option.some 1) [2] 0 0).generate_hash :=
  generate_hash_depends_only_on_fields _ _ rfl rfl

/-- C6: block construction is a total function — for any `previous_hash` and
any transaction sequence it yields a block storing exactly the given fields,
whose `this_hash` is computed immediately at construction from those current
fields (the pre-mining state: the source has no nonce, which spec §3 equates
with `nonce = 0`); no partial or invalid block can be produced. -/
theorem block_construction_total_and_hashes_fields (ph : Option Int) (txs : List Int)
    (now : Nat) :
    (Block.new ph txs now).previous_hash = ph ∧
    (Block.new ph txs now).transactions = txs ∧
    (Block.new ph txs now).timestamp = now ∧
    (Block.new ph txs now).this_hash = (Block.new ph txs now).generate_hash :=
  ⟨rfl, rfl, rfl, rfl⟩

/-- C7: a freshly created `Chain` has length 1, and its sole block — the
genesis at index 0 — has `previous_hash = None` and an empty transaction
sequence. -/
theorem fresh_chain_genesis (now : Nat) :
    (Chain.new now).chain.length = 1 ∧
    ((Chain.new now).chain.head?).map Block.previous_hash
        = Option.some Option.none ∧
    ((Chain.new now).chain.head?).map Block.transactions = Option.some [] :=
  ⟨rfl, rfl, rfl⟩

/-- C8: for every node whose pool is `[1, 2]` (and whose chain, like every
constructible chain, holds at least the genesis block), `mine` grows the
chain by exactly one block, the new last block carries transactions
`[1, 2]`, and the pool is left empty — all in the one state transition. -/
theorem mine_appends_pool_and_clears (n : Node) (now : Nat)
    (hp : n.unmined_transactions = [1, 2]) (hc : n.chain.chain ≠ []) :
    (n.mine now).chain.chain.length = n.chain.chain.length + 1 ∧
    ((n.mine now).chain.chain.getLast?).map Block.transactions = Option.some [1, 2] ∧
    (n.mine now).unmined_transactions = [] := by
  have hmine : n.mine now =
      { n with
        chain := ⟨n.chain.chain ++
          [Block.new (Option.some ((n.chain.chain.getLast hc)).this_hash) [1, 2] now]⟩,
        unmined_transactions := [] } := by
    simp [Node.mine, hp, register_block_eq n.chain hc]
  rw [hmine]
  refine ⟨by simp, ?_, rfl⟩
  simp [Block.new]

/-- Witness for C8 at a concrete node. -/
theorem mine_appends_pool_and_clears_witness :
    ((Node.mk (Chain.new 0) [1, 2] []).mine 3).chain.chain.length
        = (Node.mk (Chain.new 0) [1, 2] []).chain.chain.length + 1 ∧
    (((Node.mk (Chain.new 0) [1, 2] []).mine 3).chain.chain.getLast?).map Block.transactions
        = Option.some [1, 2] ∧
    ((Node.mk (Chain.new 0) [1, 2] []).mine 3).unmined_transactions = [] :=
  mine_appends_pool_and_clears (Node.mk (Chain.new 0) [1, 2] []) 3 rfl (by decide)

/-- C9: mutating the transactions of the *last* (tip) block of a valid chain
is never detected: `isvalid` only compares each block's `previous_hash` with
its predecessor's recomputed hash, and no later block points at the tip, so
the mutated chain still reports `isvalid = true`. -/
theorem tip_mutation_undetected (c : Chain) (txs : List Int)
    (hv : c.isvalid = true) (hne : c.chain ≠ []) :
    (c.setTransactions (c.chain.length - 1) txs).isvalid = true := by
  show linksOk (setTransactionsAt c.chain (c.chain.length - 1) txs) = true
  rw [Chain.isvalid, linksOk_iff_forall_get] at hv
  rw [linksOk_iff_forall_get]
  intro i h
  have hlen := setTransactionsAt_length c.chain (c.chain.length - 1) txs
  have hi1 : i + 1 < c.chain.length := by omega
  rw [setTransactionsAt_get, setTransactionsAt_get]
  rw [if_neg (by omega : ¬ i = c.chain.length - 1)]
  by_cases he : i + 1 = c.chain.length - 1
  · rw [if_pos he]
    exact hv i hi1
  · rw [if_neg he]
    exact hv i hi1

/-- Witness for C9: mutating the tip of a concrete three-block valid chain
leaves it valid. -/
theorem tip_mutation_undetected_witness :
    (((Chain.buildSteps (Chain.new 0) [([1], 1), ([5], 2)]).getD
          (Chain.new 0)).setTransactions
        (((Chain.buildSteps (Chain.new 0) [([1], 1), ([5], 2)]).getD
            (Chain.new 0)).chain.length - 1)
        [9]).isvalid = true :=
  tip_mutation_undetected _ [9] (by decide) (by decide)

/-- C10: the computed `this_hash` is independent of the block's timestamp:
two blocks constructed from equal `previous_hash` and equal `transactions`
at any two times receive equal `this_hash` — the hash expression never reads
the clock (it is even computed before `timestamp` is assigned). -/
theorem this_hash_independent_of_timestamp (ph : Option Int) (txs : List Int)
    (t1 t2 : Nat) :
    (Block.new ph txs t1).this_hash = (Block.new ph txs t2).this_hash := rfl

end Blockchain
